import Mathlib

/-!
# Verification of `exam_optimizer`

Shallow embedding of `src/exam_optimizer.py` over exact rationals, together
with theorems settling the specification claims about the data entity
`SectionPerformance` and the allocation function `allocate_time`.
-/

namespace ExamOptimizer

/-- The `SectionPerformance` record: a section name, its weight (relative
marks) and the student's proficiency in it.  Mirrors the Python dataclass
fields of `exam_optimizer.py`. -/
structure SectionPerformance where
  name : String
  weight : ℚ
  proficiency : ℚ
deriving DecidableEq, Repr

/-- The invariant enforced by `SectionPerformance.__post_init__`:
proficiency lies in [0, 1] and weight is non-negative. -/
def SectionPerformance.valid (s : SectionPerformance) : Prop :=
  0 ≤ s.proficiency ∧ s.proficiency ≤ 1 ∧ 0 ≤ s.weight

instance (s : SectionPerformance) : Decidable s.valid := by
  unfold SectionPerformance.valid
  exact inferInstance

/-- Validated construction of a `SectionPerformance`, embedding
`__post_init__`: the proficiency check runs first, then the weight check;
a failed check raises `ValueError` with the corresponding message, modelled
as `Except.error`. -/
def mkSectionPerformance (name : String) (weight proficiency : ℚ) :
    Except String SectionPerformance :=
  if ¬ (0 ≤ proficiency ∧ proficiency ≤ 1) then
    Except.error "proficiency must be between 0 and 1"
  else if weight < 0 then
    Except.error "weight must be non-negative"
  else
    Except.ok ⟨name, weight, proficiency⟩

/-- The difficulty score `s.weight * (1 - s.proficiency)` computed for each
section on line 43 of `exam_optimizer.py`. -/
def difficultyScore (s : SectionPerformance) : ℚ :=
  s.weight * (1 - s.proficiency)

/-- Embedding of `allocate_time`.  A raised `ValueError` is modelled as
`Except.error` carrying the message. -/
def allocate_time (sections : List SectionPerformance) (total_time : ℚ) :
    Except String (List (String × ℚ)) :=
  if total_time ≤ 0 then
    Except.error "total_time must be positive"
  else
    let difficulty_scores := sections.map difficultyScore
    let total_difficulty := difficulty_scores.sum
    if total_difficulty = 0 then
      let even_time := if sections.isEmpty then 0 else total_time / (sections.length : ℚ)
      Except.ok (sections.map fun s => (s.name, even_time))
    else
      Except.ok ((sections.zip difficulty_scores).map fun p =>
        (p.1.name, total_time * p.2 / total_difficulty))

/-- The pair list returned by a successful call to `allocate_time`
(empty on error). -/
def allocResult (sections : List SectionPerformance) (total_time : ℚ) :
    List (String × ℚ) :=
  match allocate_time sections total_time with
  | Except.ok l => l
  | Except.error _ => []

/-- Just the allocated times of a successful call, in order. -/
def allocations (sections : List SectionPerformance) (total_time : ℚ) : List ℚ :=
  (allocResult sections total_time).map Prod.snd

/-- The time allocated to the section at index `i` (0 outside the range). -/
def allocAt (sections : List SectionPerformance) (total_time : ℚ) (i : ℕ) : ℚ :=
  (allocations sections total_time).getD i 0

/-- The sum of all allocated times of a successful call. -/
def sumAlloc (sections : List SectionPerformance) (total_time : ℚ) : ℚ :=
  (allocations sections total_time).sum

/-- The demo input of the module's `__main__` block. -/
def demo_sections : List SectionPerformance :=
  [⟨"Math", 50, 0.8⟩, ⟨"Reading", 30, 0.5⟩, ⟨"Writing", 20, 0.2⟩]

/-! ## Helper lemmas -/

lemma zip_scores_map (sections : List SectionPerformance) (T D : ℚ) :
    ((sections.zip (sections.map difficultyScore)).map fun p =>
        (p.1.name, T * p.2 / D)) =
      sections.map fun s => (s.name, T * difficultyScore s / D) := by
  induction sections with
  | nil => rfl
  | cons a t ih => simp only [List.map_cons, List.zip_cons_cons, ih]

/-- In the non-degenerate branch, `allocate_time` returns the proportional
allocation `total_time * difficulty_i / total_difficulty`. -/
lemma allocate_time_nondegen (sections : List SectionPerformance) (T : ℚ)
    (hT : 0 < T) (hD : (sections.map difficultyScore).sum ≠ 0) :
    allocate_time sections T = Except.ok (sections.map fun s =>
      (s.name, T * difficultyScore s / (sections.map difficultyScore).sum)) := by
  simp only [allocate_time, if_neg (not_le.mpr hT), if_neg hD]
  exact congrArg Except.ok (zip_scores_map sections T _)

/-- In the degenerate branch, `allocate_time` splits the time evenly. -/
lemma allocate_time_degen (sections : List SectionPerformance) (T : ℚ)
    (hT : 0 < T) (hD : (sections.map difficultyScore).sum = 0) :
    allocate_time sections T = Except.ok (sections.map fun s =>
      (s.name, if sections.isEmpty then 0 else T / (sections.length : ℚ))) := by
  simp only [allocate_time, if_neg (not_le.mpr hT), if_pos hD]

lemma snd_map_pair (l : List SectionPerformance) (e : SectionPerformance → ℚ) :
    (l.map fun s => (s.name, e s)).map Prod.snd = l.map e := by
  induction l with
  | nil => rfl
  | cons a t ih => simp only [List.map_cons, ih]

lemma fst_map_pair (l : List SectionPerformance) (e : SectionPerformance → ℚ) :
    (l.map fun s => (s.name, e s)).map Prod.fst = l.map SectionPerformance.name := by
  induction l with
  | nil => rfl
  | cons a t ih => simp only [List.map_cons, ih]

lemma sum_map_scaled {α : Type*} (T D : ℚ) (f : α → ℚ) (l : List α) :
    (l.map fun a => T * f a / D).sum = T * (l.map f).sum / D := by
  induction l with
  | nil => simp
  | cons a t ih =>
    simp only [List.map_cons, List.sum_cons, ih]
    ring

lemma sum_map_const {α : Type*} (c : ℚ) (l : List α) :
    (l.map fun _ => c).sum = (l.length : ℚ) * c := by
  induction l with
  | nil => simp
  | cons a t ih =>
    simp only [List.map_cons, List.sum_cons, ih, List.length_cons]
    push_cast
    ring

lemma getD_map_of_lt {α β : Type*} (g : α → β) (d : β) (l : List α) (i : ℕ)
    (h : i < l.length) :
    (l.map g).getD i d = g (l.get ⟨i, h⟩) := by
  induction l generalizing i with
  | nil => simp at h
  | cons a t ih =>
    cases i with
    | zero => rfl
    | succ j => exact ih j (by simpa using h)

lemma getD_map_middle {α β : Type*} (g : α → β) (d : β) (pre : List α) (s : α)
    (post : List α) :
    ((pre ++ s :: post).map g).getD pre.length d = g s := by
  induction pre with
  | nil => rfl
  | cons a t ih => exact ih

lemma getD_nonneg (l : List ℚ) (i : ℕ) (h : ∀ x ∈ l, 0 ≤ x) : 0 ≤ l.getD i 0 := by
  induction l generalizing i with
  | nil => simp [List.getD]
  | cons a t ih =>
    cases i with
    | zero => simpa using h a (List.mem_cons_self a t)
    | succ j => exact ih j fun x hx => h x (List.mem_cons_of_mem a hx)

lemma difficultyScore_nonneg (s : SectionPerformance) (h : s.valid) :
    0 ≤ difficultyScore s :=
  mul_nonneg h.2.2 (by linarith [h.2.1])

lemma total_difficulty_nonneg (sections : List SectionPerformance)
    (hvalid : ∀ s ∈ sections, s.valid) :
    0 ≤ (sections.map difficultyScore).sum := by
  apply List.sum_nonneg
  intro x hx
  obtain ⟨s, hs, rfl⟩ := List.mem_map.mp hx
  exact difficultyScore_nonneg s (hvalid s hs)

lemma sum_middle (pre post : List SectionPerformance) (x : SectionPerformance) :
    ((pre ++ x :: post).map difficultyScore).sum =
      difficultyScore x +
        ((pre.map difficultyScore).sum + (post.map difficultyScore).sum) := by
  simp only [List.map_append, List.map_cons, List.sum_append, List.sum_cons]
  ring

/-- The proportional share `T * d / (d + R)` is strictly monotone in the
difficulty score `d` as long as the rest `R` is positive. -/
lemma alloc_frac_strict_mono (T R d₁ d₂ : ℚ) (hT : 0 < T) (hR : 0 < R)
    (h₁ : 0 ≤ d₁) (h₁₂ : d₁ < d₂) :
    T * d₁ / (d₁ + R) < T * d₂ / (d₂ + R) := by
  have hden₁ : 0 < d₁ + R := by linarith
  have hden₂ : 0 < d₂ + R := by linarith
  rw [div_lt_div_iff₀ hden₁ hden₂]
  nlinarith [mul_pos hT hR]

/-- The allocated time of the section between `pre` and `post`, in the
non-degenerate branch. -/
lemma allocAt_middle (pre post : List SectionPerformance)
    (s : SectionPerformance) (T : ℚ) (hT : 0 < T)
    (hD : ((pre ++ s :: post).map difficultyScore).sum ≠ 0) :
    allocAt (pre ++ s :: post) T pre.length =
      T * difficultyScore s / ((pre ++ s :: post).map difficultyScore).sum := by
  simp only [allocAt, allocations, allocResult,
    allocate_time_nondegen (pre ++ s :: post) T hT hD]
  rw [snd_map_pair]
  exact getD_map_middle _ 0 pre s post

/-! ## Claims -/

/-- C1: for every list of valid sections and every `total_time > 0`, the sum
of the allocated times returned by `allocate_time` equals `total_time`, in
the proportional branch as well as in the even-split degenerate branch with
a non-empty list (over exact rationals the identity is exact). -/
theorem allocate_time_conservation (sections : List SectionPerformance) (T : ℚ)
    (hvalid : ∀ s ∈ sections, s.valid) (hT : 0 < T) (hne : sections ≠ []) :
    sumAlloc sections T = T := by
  by_cases hD : (sections.map difficultyScore).sum = 0
  · obtain ⟨a, t, rfl⟩ := List.exists_cons_of_ne_nil hne
    have hlen : ((a :: t).length : ℚ) ≠ 0 := by
      simp only [List.length_cons]
      push_cast
      positivity
    simp only [sumAlloc, allocations, allocResult,
      allocate_time_degen (a :: t) T hT hD]
    rw [snd_map_pair]
    have hconst : ((a :: t).map fun _ : SectionPerformance =>
        if (a :: t).isEmpty then (0 : ℚ) else T / ((a :: t).length : ℚ)) =
        (a :: t).map fun _ : SectionPerformance => T / ((a :: t).length : ℚ) := rfl
    rw [hconst, sum_map_const]
    field_simp
  · simp only [sumAlloc, allocations, allocResult,
      allocate_time_nondegen sections T hT hD]
    rw [snd_map_pair, sum_map_scaled, mul_div_assoc, div_self hD, mul_one]

/-- C1 witness: a concrete instantiation of the conservation theorem. -/
theorem allocate_time_conservation_witness :
    sumAlloc [(⟨"A", 1, 0⟩ : SectionPerformance)] 2 = 2 :=
  allocate_time_conservation [⟨"A", 1, 0⟩] 2
    (by
      intro s hs
      simp only [List.mem_singleton] at hs
      subst hs
      exact ⟨by norm_num, by norm_num, by norm_num⟩)
    (by norm_num) (List.cons_ne_nil _ _)

/-- C2 counterexample: the claim as stated is false.  With a single section
of weight 1 and proficiency 1/2 (non-degenerate branch), raising the weight
to 2 leaves the allocated time unchanged at 10, so increasing a section's
weight does not strictly increase its allocated time. -/
theorem allocate_time_monotone_counterexample :
    ([(⟨"A", 1, 1/2⟩ : SectionPerformance)].map difficultyScore).sum ≠ 0
  ∧ ([(⟨"A", 2, 1/2⟩ : SectionPerformance)].map difficultyScore).sum ≠ 0
  ∧ allocAt [⟨"A", 1, 1/2⟩] 10 0 = 10
  ∧ allocAt [⟨"A", 2, 1/2⟩] 10 0 = 10
  ∧ ¬ allocAt [⟨"A", 1, 1/2⟩] 10 0 < allocAt [⟨"A", 2, 1/2⟩] 10 0 := by
  norm_num [allocAt, allocations, allocResult, allocate_time, difficultyScore]

/-- C2 (amended): holding `total_time` and all other sections fixed, if the
other sections have positive total difficulty and the section itself has
positive weight and proficiency strictly below 1, then increasing its weight
strictly increases its allocated time, and decreasing its proficiency
strictly increases its difficulty score and its allocated time. -/
theorem allocate_time_monotone (pre post : List SectionPerformance)
    (s : SectionPerformance) (T w₂ p₂ : ℚ) (hT : 0 < T)
    (hR : 0 < (pre.map difficultyScore).sum + (post.map difficultyScore).sum)
    (hwpos : 0 < s.weight) (hp1 : s.proficiency < 1)
    (hw : s.weight < w₂) (hp : p₂ < s.proficiency) :
    allocAt (pre ++ s :: post) T pre.length <
        allocAt (pre ++ {s with weight := w₂} :: post) T pre.length
  ∧ difficultyScore s < difficultyScore {s with proficiency := p₂}
  ∧ allocAt (pre ++ s :: post) T pre.length <
        allocAt (pre ++ {s with proficiency := p₂} :: post) T pre.length := by
  set R := (pre.map difficultyScore).sum + (post.map difficultyScore).sum with hRdef
  have hd₁ : 0 < difficultyScore s :=
    mul_pos hwpos (by linarith)
  have hdw : difficultyScore s < difficultyScore {s with weight := w₂} := by
    simp only [difficultyScore]
    have h1p : 0 < 1 - s.proficiency := by linarith
    exact mul_lt_mul_of_pos_right hw h1p
  have hdp : difficultyScore s < difficultyScore {s with proficiency := p₂} := by
    simp only [difficultyScore]
    have := mul_lt_mul_of_pos_left (by linarith : 1 - s.proficiency < 1 - p₂) hwpos
    simpa using this
  have key : ∀ x : SectionPerformance, difficultyScore s ≤ difficultyScore x →
      allocAt (pre ++ x :: post) T pre.length =
        T * difficultyScore x / (difficultyScore x + R) := by
    intro x hx
    have hDx : ((pre ++ x :: post).map difficultyScore).sum = difficultyScore x + R := by
      rw [sum_middle]
    have hDxpos : 0 < difficultyScore x + R := by linarith
    rw [allocAt_middle pre post x T hT (by rw [hDx]; exact ne_of_gt hDxpos), hDx]
  rw [key s le_rfl, key {s with weight := w₂} hdw.le,
    key {s with proficiency := p₂} hdp.le]
  exact ⟨alloc_frac_strict_mono T R _ _ hT hR hd₁.le hdw,
    hdp, alloc_frac_strict_mono T R _ _ hT hR hd₁.le hdp⟩

/-- C2 witness: a concrete instantiation of the amended monotonicity
theorem. -/
theorem allocate_time_monotone_witness :
    allocAt [⟨"B", 1, 0⟩, ⟨"A", 1, 1/2⟩] 10 1 <
        allocAt [⟨"B", 1, 0⟩, ⟨"A", 2, 1/2⟩] 10 1
  ∧ difficultyScore ⟨"A", 1, 1/2⟩ < difficultyScore ⟨"A", 1, 1/4⟩
  ∧ allocAt [⟨"B", 1, 0⟩, ⟨"A", 1, 1/2⟩] 10 1 <
        allocAt [⟨"B", 1, 0⟩, ⟨"A", 1, 1/4⟩] 10 1 :=
  allocate_time_monotone [⟨"B", 1, 0⟩] [] ⟨"A", 1, 1/2⟩ 10 2 (1/4)
    (by norm_num) (by norm_num [difficultyScore]) (by norm_num)
    (by norm_num) (by norm_num) (by norm_num)

/-- C3: on a non-empty list of valid sections in which every section has
weight 0 or proficiency 1, `allocate_time` returns exactly
`total_time / count` for each section. -/
theorem allocate_time_even_split (sections : List SectionPerformance) (T : ℚ)
    (hvalid : ∀ s ∈ sections, s.valid) (hne : sections ≠ []) (hT : 0 < T)
    (h : ∀ s ∈ sections, s.weight = 0 ∨ s.proficiency = 1) :
    allocate_time sections T =
      Except.ok (sections.map fun s => (s.name, T / (sections.length : ℚ))) := by
  have hD : (sections.map difficultyScore).sum = 0 := by
    apply List.sum_eq_zero
    intro x hx
    obtain ⟨s, hs, rfl⟩ := List.mem_map.mp hx
    rcases h s hs with h0 | h1
    · simp [difficultyScore, h0]
    · simp [difficultyScore, h1]
  have hemp : sections.isEmpty = false := by
    obtain ⟨a, t, rfl⟩ := List.exists_cons_of_ne_nil hne
    rfl
  rw [allocate_time_degen sections T hT hD, hemp]
  simp

/-- C3 witness: a concrete instantiation of the even-split theorem. -/
theorem allocate_time_even_split_witness :
    allocate_time [(⟨"A", 0, 1/2⟩ : SectionPerformance), ⟨"B", 3, 1⟩] 4 =
      Except.ok ([(⟨"A", 0, 1/2⟩ : SectionPerformance), ⟨"B", 3, 1⟩].map
        fun s => (s.name, 4 / (([(⟨"A", 0, 1/2⟩ : SectionPerformance),
          ⟨"B", 3, 1⟩]).length : ℚ))) :=
  allocate_time_even_split [⟨"A", 0, 1/2⟩, ⟨"B", 3, 1⟩] 4
    (by
      intro s hs
      simp only [List.mem_cons, List.not_mem_nil, or_false] at hs
      rcases hs with rfl | rfl
      · exact ⟨by norm_num, by norm_num, by norm_num⟩
      · exact ⟨by norm_num, by norm_num, by norm_num⟩)
    (List.cons_ne_nil _ _) (by norm_num)
    (by
      intro s hs
      simp only [List.mem_cons, List.not_mem_nil, or_false] at hs
      rcases hs with rfl | rfl
      · exact Or.inl rfl
      · exact Or.inr rfl)

/-- C4: calling `allocate_time` with an empty list and any positive
`total_time` returns an empty result and raises no error. -/
theorem allocate_time_empty (T : ℚ) (hT : 0 < T) :
    allocate_time [] T = Except.ok [] := by
  simp [allocate_time, not_le.mpr hT]

/-- C4 witness: the empty-input theorem at `total_time = 1`. -/
theorem allocate_time_empty_witness : allocate_time [] 1 = Except.ok [] :=
  allocate_time_empty 1 (by norm_num)

/-- C5: `allocate_time` fails, with the message "total_time must be
positive", exactly when `total_time ≤ 0`, for every sections list including
the empty one; when it fails no result is produced (the return value is the
error alone). -/
theorem allocate_time_error_iff (sections : List SectionPerformance) (T : ℚ)
    (e : String) :
    allocate_time sections T = Except.error e ↔
      T ≤ 0 ∧ e = "total_time must be positive" := by
  by_cases hT : T ≤ 0
  · simp only [allocate_time, if_pos hT]
    simp [hT, eq_comm]
  · simp only [allocate_time, if_neg hT]
    by_cases hD : (sections.map difficultyScore).sum = 0
    · simp [hD, hT]
    · simp [hD, hT]

/-- C6: `mkSectionPerformance` fails exactly when proficiency is outside
[0, 1] or weight is negative, with the error naming the offending field
(the proficiency check runs first); every successful construction yields an
instance satisfying the invariant with the given field values. -/
theorem mkSectionPerformance_validation (name : String) (w p : ℚ) :
    (mkSectionPerformance name w p =
        Except.error "proficiency must be between 0 and 1" ↔ ¬ (0 ≤ p ∧ p ≤ 1))
  ∧ (mkSectionPerformance name w p =
        Except.error "weight must be non-negative" ↔ (0 ≤ p ∧ p ≤ 1) ∧ w < 0)
  ∧ ((∃ e, mkSectionPerformance name w p = Except.error e) ↔
        ¬ (0 ≤ p ∧ p ≤ 1) ∨ w < 0)
  ∧ ∀ s, mkSectionPerformance name w p = Except.ok s →
      s.valid ∧ s.name = name ∧ s.weight = w ∧ s.proficiency = p := by
  by_cases hp : 0 ≤ p ∧ p ≤ 1
  · by_cases hw : w < 0
    · simp only [mkSectionPerformance, if_neg (not_not_intro hp), if_pos hw]
      refine ⟨by simp [hp], by simp [hp, hw], by simp [hp, hw], by simp⟩
    · simp only [mkSectionPerformance, if_neg (not_not_intro hp), if_neg hw]
      refine ⟨by simp [hp], by simp [hw], by simp [hp, hw], ?_⟩
      intro s hs
      rw [Except.ok.injEq] at hs
      subst hs
      exact ⟨⟨hp.1, hp.2, not_lt.mp hw⟩, rfl, rfl, rfl⟩
  · simp only [mkSectionPerformance, if_pos hp]
    refine ⟨by simp [hp], by simp [hp], by simp [hp], by simp⟩

/-- C6 witness: the spec's concrete rejection, `proficiency = 1.5`. -/
theorem mkSectionPerformance_validation_witness :
    mkSectionPerformance "A" 1 (3/2) =
      Except.error "proficiency must be between 0 and 1" :=
  (mkSectionPerformance_validation "A" 1 (3/2)).1.mpr (by norm_num)

/-- C7: for every sections list and `total_time > 0`, `allocate_time`
succeeds with exactly one (name, time) pair per input section, in input
order, the name at position i being the name of input section i; duplicate
input names simply yield duplicate output entries. -/
theorem allocate_time_shape (sections : List SectionPerformance) (T : ℚ)
    (hT : 0 < T) :
    allocate_time sections T = Except.ok (allocResult sections T)
  ∧ (allocResult sections T).length = sections.length
  ∧ (allocResult sections T).map Prod.fst = sections.map SectionPerformance.name := by
  by_cases hD : (sections.map difficultyScore).sum = 0
  · simp only [allocResult, allocate_time_degen sections T hT hD]
    exact ⟨by trivial, by simp, fst_map_pair _ _⟩
  · simp only [allocResult, allocate_time_nondegen sections T hT hD]
    exact ⟨by trivial, by simp, fst_map_pair _ _⟩

/-- C7 witness: the shape theorem on a list with a duplicated name. -/
theorem allocate_time_shape_witness :
    allocate_time [(⟨"A", 1, 0⟩ : SectionPerformance), ⟨"A", 2, 0⟩] 3 =
        Except.ok (allocResult [⟨"A", 1, 0⟩, ⟨"A", 2, 0⟩] 3)
  ∧ (allocResult [(⟨"A", 1, 0⟩ : SectionPerformance), ⟨"A", 2, 0⟩] 3).length =
        ([(⟨"A", 1, 0⟩ : SectionPerformance), ⟨"A", 2, 0⟩]).length
  ∧ (allocResult [(⟨"A", 1, 0⟩ : SectionPerformance), ⟨"A", 2, 0⟩] 3).map Prod.fst =
        ([(⟨"A", 1, 0⟩ : SectionPerformance), ⟨"A", 2, 0⟩]).map
          SectionPerformance.name :=
  allocate_time_shape [⟨"A", 1, 0⟩, ⟨"A", 2, 0⟩] 3 (by norm_num)

/-- C8: on the demo input (Math 50/0.8, Reading 30/0.5, Writing 20/0.2)
with `total_time = 180`, the difficulty scores are 10, 15, 16 summing to
41, and the allocations are 180·10/41, 180·15/41, 180·16/41 in that order,
summing to 180. -/
theorem allocate_time_demo :
    demo_sections.map difficultyScore = [10, 15, 16]
  ∧ (demo_sections.map difficultyScore).sum = 41
  ∧ allocate_time demo_sections 180 =
      Except.ok [("Math", 180 * 10 / 41), ("Reading", 180 * 15 / 41),
        ("Writing", 180 * 16 / 41)]
  ∧ sumAlloc demo_sections 180 = 180 := by
  refine ⟨?_, ?_, ?_, ?_⟩ <;>
    norm_num [demo_sections, difficultyScore, allocate_time, sumAlloc,
      allocations, allocResult]

/-- C10: for valid sections and `total_time > 0`, every allocated time is
non-negative; in the non-degenerate branch an allocation is 0 exactly when
the section's difficulty score is 0; in the degenerate branch every section
receives the strictly positive share `total_time / count`. -/
theorem allocate_time_nonneg (sections : List SectionPerformance) (T : ℚ)
    (hvalid : ∀ s ∈ sections, s.valid) (hT : 0 < T) :
    (∀ i, 0 ≤ allocAt sections T i)
  ∧ ((sections.map difficultyScore).sum ≠ 0 →
      ∀ i, (h : i < sections.length) →
        (allocAt sections T i = 0 ↔ difficultyScore (sections.get ⟨i, h⟩) = 0))
  ∧ ((sections.map difficultyScore).sum = 0 → sections ≠ [] →
      ∀ i, i < sections.length →
        allocAt sections T i = T / (sections.length : ℚ) ∧
          0 < allocAt sections T i) := by
  refine ⟨?_, ?_, ?_⟩
  · intro i
    apply getD_nonneg
    intro x hx
    by_cases hD : (sections.map difficultyScore).sum = 0
    · simp only [allocations, allocResult,
        allocate_time_degen sections T hT hD, snd_map_pair] at hx
      obtain ⟨s, hs, rfl⟩ := List.mem_map.mp hx
      by_cases hemp : sections.isEmpty
      · simp [hemp]
      · simp only [if_neg hemp]
        positivity
    · simp only [allocations, allocResult,
        allocate_time_nondegen sections T hT hD, snd_map_pair] at hx
      obtain ⟨s, hs, rfl⟩ := List.mem_map.mp hx
      have hDpos : 0 < (sections.map difficultyScore).sum :=
        lt_of_le_of_ne (total_difficulty_nonneg sections hvalid) (Ne.symm hD)
      have hds : 0 ≤ difficultyScore s := difficultyScore_nonneg s (hvalid s hs)
      positivity
  · intro hD i h
    have : allocAt sections T i =
        T * difficultyScore (sections.get ⟨i, h⟩) /
          (sections.map difficultyScore).sum := by
      simp only [allocAt, allocations, allocResult,
        allocate_time_nondegen sections T hT hD, snd_map_pair]
      exact getD_map_of_lt _ 0 sections i h
    rw [this, div_eq_zero_iff, mul_eq_zero]
    simp [hD, ne_of_gt hT]
  · intro hD hne i h
    have hlen : 0 < (sections.length : ℚ) := by
      obtain ⟨a, t, rfl⟩ := List.exists_cons_of_ne_nil hne
      simp only [List.length_cons]
      push_cast
      positivity
    have hemp : sections.isEmpty = false := by
      obtain ⟨a, t, rfl⟩ := List.exists_cons_of_ne_nil hne
      rfl
    have heq : allocAt sections T i = T / (sections.length : ℚ) := by
      simp only [allocAt, allocations, allocResult,
        allocate_time_degen sections T hT hD, snd_map_pair, hemp]
      rw [getD_map_of_lt _ 0 sections i h]
      simp
    exact ⟨heq, heq ▸ div_pos hT hlen⟩

/-- C10 witness: a concrete instantiation of the non-negativity theorem. -/
theorem allocate_time_nonneg_witness :
    0 ≤ allocAt [(⟨"A", 1, 1/2⟩ : SectionPerformance)] 2 0 :=
  (allocate_time_nonneg [⟨"A", 1, 1/2⟩] 2
    (by
      intro s hs
      simp only [List.mem_singleton] at hs
      subst hs
      exact ⟨by norm_num, by norm_num, by norm_num⟩)
    (by norm_num)).1 0

end ExamOptimizer
